import Mathlib

/-!
# Verification of the repofit matching/scoring pipeline

Shallow embedding of `src/matcher/recommender.py` (class `Recommender`) and the
store operations it uses from `src/storage/supabase_client.py`.

Modelling conventions:
* Python floats become `ℚ`; star counts become `ℤ`.
* A Python `set[str]` is represented by a duplicate-free `List String`
  (`List.dedup` of the construction order).  Converting a set to a list
  (`list(overlap)` in the source) has an order that depends on the runtime's
  hash seed, so it is modelled by an enumeration oracle
  `enum : List String → List String` constrained to permute its input
  (`SetEnum`): every possible iteration order of the set is some valid `enum`.
* External collaborators (Supabase queries, the pgvector RPC, Gemini, Slack)
  are oracle fields of an environment record; exceptions raised by a
  collaborator are modelled by `Option`/`Bool` results.
* The recommendation table is a keyed map `Store`; `save_recommendation`'s
  `upsert(..., on_conflict="project_id,repository_id")` is function update.
-/

/-- A justification record `{"type": ..., "text": ...}`. -/
structure Reason where
  type : String
  text : String
deriving DecidableEq, Repr

/-- One row returned by the `gt_match_repos_to_project` RPC
(`find_similar_repos`): repository id, full name, embedding similarity. -/
structure Cand where
  repository_id : String
  full_name : String
  similarity : ℚ
deriving DecidableEq, Repr

/-- Repository metadata as assembled by `get_repo_metadata_by_ids`:
`language`, `topics` (possibly `None` in the row, hence `Option`),
`overall_score` from the latest analysis (or `None`), `stars_today`
(defaulted to 0 in the lookup itself), `stars`. -/
structure RepoMeta where
  language : Option String
  topics : Option (List String)
  overall_score : Option ℚ
  stars_today : ℤ
  stars : ℤ
deriving DecidableEq, Repr

/-- The fields of a project row used by `match_project_to_repos`. -/
structure Project where
  tech_stack : List String
  tags : List String
deriving DecidableEq, Repr

/-- One element of the list returned by `match_project_to_repos`. -/
structure Rec where
  repo_id : String
  full_name : String
  score : ℚ
  reasons : List Reason
  stars : ℤ
deriving DecidableEq, Repr

/-- A row of `gt_recommendations` as written by `save_recommendation`. -/
structure Row where
  score : ℚ
  reasons : List Reason
  embedding_similarity : Option ℚ
  stack_overlap_score : Option ℚ
  status : String
deriving DecidableEq, Repr

/-- The recommendation table, keyed by `(project_id, repository_id)` —
the upsert conflict key. -/
def Store : Type := String × String → Option Row

/-- `save_recommendation`: upsert on the composite key, last write wins. -/
def upsert (σ : Store) (k : String × String) (v : Row) : Store :=
  fun k' => if k' = k then some v else σ k'

/-- The empty recommendation table. -/
def emptyStore : Store := fun _ => none

/-- An enumeration oracle is any function that lists a duplicate-free
list's elements in some order: this is what Python's `list(set)` does,
the order depending on the interpreter's hash seed. -/
def SetEnum (enum : List String → List String) : Prop :=
  ∀ l : List String, (enum l).Perm l

/-- One valid enumeration: the identity (some hash seed's order). -/
def idEnum : List String → List String := fun l => l

/-- Another valid enumeration: the reversed order (another seed's order). -/
def revEnum : List String → List String := fun l => l.reverse

/-- Python's `str.lower()`: per-character lowercasing (kernel-computable,
unlike `String.toLower` whose `mapAux` is partial). -/
def pyLower (s : String) : String := ⟨s.data.map Char.toLower⟩

/-- `set(t.lower() for t in project_stack + project_tags)`. -/
def projectTerms (project_stack : List String) (project_tags : List String) :
    List String :=
  ((project_stack ++ project_tags).map pyLower).dedup

/-- `set(t.lower() for t in repo_topics)`, then `add(repo_language.lower())`
when `repo_language` is truthy (present and non-empty). -/
def repoTerms (repo_language : Option String) (repo_topics : List String) :
    List String :=
  let repo_terms0 := (repo_topics.map pyLower).dedup
  match repo_language with
  | some l => if l = "" then repo_terms0 else repo_terms0.insert (pyLower l)
  | none => repo_terms0

/-- The set intersection `project_terms & repo_terms` (as the sub-list of
`projectTerms` lying in `repoTerms`). -/
def overlapTerms (project_stack : List String) (project_tags : List String)
    (repo_language : Option String) (repo_topics : List String) : List String :=
  (projectTerms project_stack project_tags).filter
    (fun t => t ∈ repoTerms repo_language repo_topics)

/-- `Recommender._calculate_stack_overlap`.  Sets are represented as
dedup'd lists; `list(overlap)` is `enum` applied to the intersection. -/
def _calculate_stack_overlap (enum : List String → List String)
    (project_stack : List String) (project_tags : List String)
    (repo_language : Option String) (repo_topics : List String) :
    ℚ × List String :=
  let project_terms := projectTerms project_stack project_tags
  let repo_terms := repoTerms repo_language repo_topics
  if project_terms = [] ∨ repo_terms = [] then (0, [])
  else
    let overlap := overlapTerms project_stack project_tags repo_language repo_topics
    let overlap_score : ℚ := (overlap.length : ℚ) / (max project_terms.length 1 : ℕ)
    (min 1 overlap_score, enum overlap)

/-- The metadata defaults applied when `repo_metadata.get(repo_id, {})`
finds nothing: every field read then falls back to its `.get` default. -/
def defaultMeta : RepoMeta :=
  { language := none, topics := none, overall_score := none
    stars_today := 0, stars := 0 }

/-- `min(1.0, ((overall_score or 50) / 100))`.  Note Python's `or`:
a present score of `0` is falsy and also falls back to `50`. -/
def qualityScore (overall_score : Option ℚ) : ℚ :=
  min 1 ((match overall_score with
          | none => 50
          | some q => if q = 0 then 50 else q) / 100)

/-- The loop body of `match_project_to_repos` for one candidate: computes
the sub-scores, the final score and the reasons, and yields both the
returned record and the row passed to `save_recommendation`. -/
def scoreCand (enum : List String → List String) (project : Project)
    (meta : String → Option RepoMeta) (c : Cand) : Rec × Row :=
  let repo_data := (meta c.repository_id).getD defaultMeta
  let so := _calculate_stack_overlap enum project.tech_stack project.tags
              repo_data.language (repo_data.topics.getD [])
  let quality_score := qualityScore repo_data.overall_score
  let final_score : ℚ :=
    (1/2) * c.similarity + (3/10) * so.1 + (1/5) * quality_score
  let reasons : List Reason :=
    (if (7:ℚ)/10 < c.similarity then
       [{ type := "semantic", text := "Semantically similar to your project" }]
     else []) ++
    (if so.2 ≠ [] then
       [{ type := "stack", text := "Stack overlap: " ++ String.intercalate (", ") so.2 }]
     else []) ++
    (if 100 < repo_data.stars_today then
       [{ type := "trending",
          text := "Hot today: +" ++ toString repo_data.stars_today ++ " stars" }]
     else [])
  ({ repo_id := c.repository_id, full_name := c.full_name, score := final_score
     reasons := reasons, stars := repo_data.stars },
   { score := final_score, reasons := reasons
     embedding_similarity := some c.similarity
     stack_overlap_score := some so.1, status := "new" })

/-- Python's `list.sort(key=..., reverse=True)` is a stable descending
sort.  Stable sorts are unique, so this insertion sort has the same
result: a later element is inserted after every strictly greater key and
before the first key not above its own. -/
def insertDesc (x : Rec) : List Rec → List Rec
  | [] => [x]
  | y :: ys => if x.score < y.score then y :: insertDesc x ys else x :: y :: ys

/-- Stable sort by `score` descending (`recommendations.sort(key=lambda x:
x["score"], reverse=True)`). -/
def stableSortDesc : List Rec → List Rec
  | [] => []
  | x :: xs => insertDesc x (stableSortDesc xs)

/-- The storage collaborators used by `match_project_to_repos`:
`get_project`, `find_similar_repos`, `get_repo_metadata_by_ids`. -/
structure MatchEnv where
  getProject : String → Option Project
  findSimilar : String → ℕ → ℤ → List Cand
  getMetaMap : List String → String → Option RepoMeta

/-- The per-candidate records of `match_project_to_repos` in candidate
order, before sorting and truncation (`[]` when the project does not
resolve). -/
def scoredList (env : MatchEnv) (enum : List String → List String)
    (project_id : String) (min_stars : ℤ) (limit : ℕ) : List (Rec × Row) :=
  match env.getProject project_id with
  | none => []
  | some project =>
      let similar_repos := env.findSimilar project_id (limit * 2) min_stars
      let repo_metadata := env.getMetaMap (similar_repos.map (·.repository_id))
      similar_repos.map (scoreCand enum project repo_metadata)

/-- The sequence of `save_recommendation` upserts issued inside the
candidate loop, applied in order to the table. -/
def persistAll (project_id : String) (scored : List (Rec × Row)) (σ : Store) :
    Store :=
  scored.foldl (fun s pr => upsert s (project_id, pr.1.repo_id) pr.2) σ

/-- `Recommender.match_project_to_repos`, returning the recommendation
list together with the updated recommendation table. -/
def match_project_to_repos (env : MatchEnv) (enum : List String → List String)
    (σ : Store) (project_id : String) (min_stars : ℤ) (limit : ℕ) :
    List Rec × Store :=
  match env.getProject project_id with
  | none => ([], σ)
  | some _ =>
      let scored := scoredList env enum project_id min_stars limit
      ((stableSortDesc (scored.map Prod.fst)).take limit,
       persistAll project_id scored σ)

/-- A row of `get_repos_without_embedding`'s select
(`id, full_name, description, readme_summary, topics` — note: no
`language` column, so `repo.get("language")` in `embed_new_repos` is
always `None`).  A `topics` column that is SQL `null` arrives as a
present key holding `None`; only its truthiness is ever used, so it is
collapsed to `Option` with `getD []`. -/
structure RepoItem where
  id : String
  full_name : String
  description : Option String
  topics : Option (List String)
  readme_summary : Option String
deriving DecidableEq, Repr

/-- A row of `get_projects_without_embedding`'s select
(`id, name, description, tech_stack, tags, goals, readme_content`). -/
structure ProjectItem where
  id : String
  name : String
  description : Option String
  tech_stack : Option (List String)
  tags : Option (List String)
  goals : Option String
  readme_content : Option String
deriving DecidableEq, Repr

/-- Python string truthiness: `if s:` keeps a part only when the optional
string is present and non-empty. -/
def optPart (label : String) (s : Option String) : List String :=
  match s with
  | some v => if v = "" then [] else [label ++ v]
  | none => []

/-- `create_repo_summary` from `src/embedder/gemini_embedder.py`. -/
def create_repo_summary (full_name : String) (description : Option String)
    (language : Option String) (topics : List String)
    (readme_summary : Option String) : String :=
  let parts := ["Repository: " ++ full_name]
    ++ optPart ("Description: ") description
    ++ optPart ("Language: ") language
    ++ (if topics = [] then [] else ["Topics: " ++ String.intercalate (", ") topics])
    ++ optPart ("Summary: ") readme_summary
  String.intercalate ("\n") parts

/-- `create_project_summary` from `src/embedder/gemini_embedder.py`
(`readme_excerpt[:1000]` is modelled as `String.take`). -/
def create_project_summary (name : String) (description : Option String)
    (tech_stack : List String) (tags : List String) (goals : Option String)
    (readme_excerpt : Option String) : String :=
  let parts := ["Project: " ++ name]
    ++ optPart ("Description: ") description
    ++ (if tech_stack = [] then [] else ["Tech Stack: " ++ String.intercalate (", ") tech_stack])
    ++ (if tags = [] then [] else ["Tags: " ++ String.intercalate (", ") tags])
    ++ optPart ("Goals: ") goals
    ++ optPart ("Details: ") (readme_excerpt.map (fun r => r.take 1000))
  String.intercalate ("\n") parts

/-- Collaborators of the embedding backfill.  `embed_text = none` models
the Gemini call raising; `updateRepoOk/updateProjectOk = false` models
the storage update raising (both are caught by the same `try`). -/
structure EmbedEnv where
  reposWithoutEmbedding : ℕ → List RepoItem
  projectsWithoutEmbedding : List ProjectItem
  embed_text : String → Option (List ℚ)
  updateRepoOk : String → List ℚ → Bool
  updateProjectOk : String → List ℚ → Bool

/-- The summary `embed_new_repos` builds for one repository row. -/
def repoSummaryOf (repo : RepoItem) : String :=
  create_repo_summary repo.full_name repo.description none
    (repo.topics.getD []) repo.readme_summary

/-- The summary `embed_new_projects` builds for one project row. -/
def projectSummaryOf (p : ProjectItem) : String :=
  create_project_summary p.name p.description (p.tech_stack.getD [])
    (p.tags.getD []) p.goals p.readme_content

/-- Whether the try-block of `embed_new_repos` succeeds for one row:
the embedding call returns and the update persists. -/
def repoEmbedOk (env : EmbedEnv) (repo : RepoItem) : Bool :=
  match env.embed_text (repoSummaryOf repo) with
  | none => false
  | some embedding => env.updateRepoOk repo.id embedding

/-- Whether the try-block of `embed_new_projects` succeeds for one row. -/
def projectEmbedOk (env : EmbedEnv) (p : ProjectItem) : Bool :=
  match env.embed_text (projectSummaryOf p) with
  | none => false
  | some embedding => env.updateProjectOk p.id embedding

/-- `Recommender.embed_new_repos` (default `limit = 50`): returns the
count together with the trace of persisted `(id, embedding)` updates.
A failing row adds nothing and the loop continues. -/
def embed_new_repos (env : EmbedEnv) (limit : ℕ) :
    ℕ × List (String × List ℚ) :=
  (env.reposWithoutEmbedding limit).foldl
    (fun acc repo =>
      match env.embed_text (repoSummaryOf repo) with
      | none => acc
      | some embedding =>
          if env.updateRepoOk repo.id embedding then
            (acc.1 + 1, acc.2 ++ [(repo.id, embedding)])
          else acc)
    (0, [])

/-- `Recommender.embed_new_projects`. -/
def embed_new_projects (env : EmbedEnv) : ℕ × List (String × List ℚ) :=
  env.projectsWithoutEmbedding.foldl
    (fun acc p =>
      match env.embed_text (projectSummaryOf p) with
      | none => acc
      | some embedding =>
          if env.updateProjectOk p.id embedding then
            (acc.1 + 1, acc.2 ++ [(p.id, embedding)])
          else acc)
    (0, [])

/-- A row of `get_projects()` as used by the orchestrator loop
(`project["id"]`, `project.get("name", "")`). -/
structure ProjRow where
  id : String
  name : String
deriving DecidableEq, Repr

/-- The summary dict returned by `run_full_pipeline`. -/
structure Summary where
  repos_embedded : ℕ
  projects_embedded : ℕ
  projects_matched : ℕ
  total_recommendations : ℕ
  notified_count : ℕ
deriving DecidableEq, Repr

/-- All collaborators of `run_full_pipeline`.  `notify_recommendations`
is `SlackNotifier.notify_recommendations`, an external delivery whose
`Bool` result is success; the trending summary payload is opaque here. -/
structure PipelineEnv where
  matchEnv : MatchEnv
  embedEnv : EmbedEnv
  getProjects : List ProjRow
  notify_recommendations : List (Rec × String) → ℚ → Option String → Bool

/-- The accumulated `all_recommendations` (each tagged with its
project's name) and the threaded store after the matching loop. -/
def pipelineMatches (env : PipelineEnv) (enum : List String → List String)
    (σ : Store) (min_stars : ℤ) : List (Rec × String) × Store :=
  env.getProjects.foldl
    (fun acc p =>
      let m := match_project_to_repos env.matchEnv enum acc.2 p.id min_stars 20
      (acc.1 ++ m.1.map (fun r => (r, p.name)), m.2))
    ([], σ)

/-- `Recommender.run_full_pipeline`.  Besides the summary and the store,
it returns the trace of `notify_recommendations` invocations (argument
triples), so that "invoked exactly once / never" is a provable fact. -/
def run_full_pipeline (env : PipelineEnv) (enum : List String → List String)
    (σ : Store) (min_stars : ℤ) (notify : Bool) (score_threshold : ℚ)
    (trending_summary : Option String) :
    Summary × Store × List (List (Rec × String) × ℚ × Option String) :=
  let repos_embedded := (embed_new_repos env.embedEnv 50).1
  let projects_embedded := (embed_new_projects env.embedEnv).1
  let matched := pipelineMatches env enum σ min_stars
  let all_recommendations := matched.1
  let high_score_recs :=
    all_recommendations.filter (fun r => score_threshold ≤ r.1.score)
  let calls :=
    if notify ∧ high_score_recs ≠ [] then
      [(high_score_recs, score_threshold, trending_summary)]
    else []
  let notified_count :=
    if notify ∧ high_score_recs ≠ [] ∧
        env.notify_recommendations high_score_recs score_threshold trending_summary then
      high_score_recs.length
    else 0
  ({ repos_embedded := repos_embedded
     projects_embedded := projects_embedded
     projects_matched := env.getProjects.length
     total_recommendations := all_recommendations.length
     notified_count := notified_count }, matched.2, calls)

/-- Outcome of one backfill iteration: `some (id, embedding)` when both
the embedding call and the persist succeed, `none` when the caught
exception path is taken. -/
def embedOutcome {α : Type} (embed : α → Option (List ℚ))
    (ok : α → List ℚ → Bool) (idOf : α → String) (a : α) :
    Option (String × List ℚ) :=
  match embed a with
  | none => none
  | some e => if ok a e then some (idOf a, e) else none

/-! ## Helper lemmas: the backfill fold -/

theorem embedFold_eq {α : Type} (embed : α → Option (List ℚ))
    (ok : α → List ℚ → Bool) (idOf : α → String) (l : List α)
    (acc : ℕ × List (String × List ℚ)) :
    l.foldl (fun acc a =>
        match embed a with
        | none => acc
        | some e =>
            if ok a e then (acc.1 + 1, acc.2 ++ [(idOf a, e)]) else acc) acc
      = (acc.1 + (l.filterMap (embedOutcome embed ok idOf)).length,
         acc.2 ++ l.filterMap (embedOutcome embed ok idOf)) := by
  induction l generalizing acc with
  | nil => simp
  | cons a l ih =>
    simp only [List.foldl_cons, List.filterMap_cons]
    cases hf : embed a with
    | none =>
      rw [ih]
      simp [embedOutcome, hf]
    | some e =>
      by_cases hok : ok a e
      · rw [ih]
        simp only [embedOutcome, hf, hok, if_pos]
        refine Prod.ext ?_ ?_
        · simp
          omega
        · simp
      · rw [ih]
        simp [embedOutcome, hf, hok]

theorem length_filterMap_isSome {α β : Type} (f : α → Option β) (l : List α) :
    (l.filterMap f).length = (l.filter (fun a => (f a).isSome)).length := by
  induction l with
  | nil => rfl
  | cons a l ih =>
    cases hf : f a with
    | none => simp [List.filterMap_cons, List.filter_cons, hf, ih]
    | some b => simp [List.filterMap_cons, List.filter_cons, hf, ih]

theorem repoEmbedOk_iff_outcome (env : EmbedEnv) (repo : RepoItem) :
    repoEmbedOk env repo =
      (embedOutcome (fun r => env.embed_text (repoSummaryOf r))
        (fun r e => env.updateRepoOk r.id e) RepoItem.id repo).isSome := by
  cases hf : env.embed_text (repoSummaryOf repo) with
  | none => simp [repoEmbedOk, embedOutcome, hf]
  | some e =>
    by_cases hok : env.updateRepoOk repo.id e <;>
      simp [repoEmbedOk, embedOutcome, hf, hok]

theorem projectEmbedOk_iff_outcome (env : EmbedEnv) (p : ProjectItem) :
    projectEmbedOk env p =
      (embedOutcome (fun a => env.embed_text (projectSummaryOf a))
        (fun a e => env.updateProjectOk a.id e) ProjectItem.id p).isSome := by
  cases hf : env.embed_text (projectSummaryOf p) with
  | none => simp [projectEmbedOk, embedOutcome, hf]
  | some e =>
    by_cases hok : env.updateProjectOk p.id e <;>
      simp [projectEmbedOk, embedOutcome, hf, hok]

/-! ## Helper lemmas: scores and their bounds -/

theorem stack_overlap_bounds (enum : List String → List String)
    (ps pt : List String) (rl : Option String) (rts : List String) :
    0 ≤ (_calculate_stack_overlap enum ps pt rl rts).1 ∧
      (_calculate_stack_overlap enum ps pt rl rts).1 ≤ 1 := by
  unfold _calculate_stack_overlap
  by_cases h : projectTerms ps pt = [] ∨ repoTerms rl rts = []
  · simp [h]
  · rw [if_neg h]
    constructor
    · exact le_min (by norm_num)
        (div_nonneg (Nat.cast_nonneg _) (Nat.cast_nonneg _))
    · exact min_le_left _ _

theorem qualityScore_le_one (o : Option ℚ) : qualityScore o ≤ 1 :=
  min_le_left _ _

theorem qualityScore_nonneg (o : Option ℚ) (h : ∀ q, o = some q → 0 ≤ q) :
    0 ≤ qualityScore o := by
  unfold qualityScore
  refine le_min (by norm_num) ?_
  cases o with
  | none => norm_num
  | some q =>
    by_cases hq : q = 0
    · simp only [hq, if_pos rfl]
      norm_num
    · simp only [if_neg hq]
      exact div_nonneg (h q rfl) (by norm_num)

theorem scoreCand_score (enum : List String → List String) (project : Project)
    (meta : String → Option RepoMeta) (c : Cand) :
    (scoreCand enum project meta c).1.score =
      (1/2) * c.similarity
      + (3/10) * (_calculate_stack_overlap enum project.tech_stack project.tags
          ((meta c.repository_id).getD defaultMeta).language
          (((meta c.repository_id).getD defaultMeta).topics.getD [])).1
      + (1/5) * qualityScore ((meta c.repository_id).getD defaultMeta).overall_score :=
  rfl

theorem scoreCand_score_bounds (enum : List String → List String)
    (project : Project) (meta : String → Option RepoMeta) (c : Cand)
    (hs0 : 0 ≤ c.similarity) (hs1 : c.similarity ≤ 1)
    (hq : ∀ q, ((meta c.repository_id).getD defaultMeta).overall_score = some q → 0 ≤ q) :
    0 ≤ (scoreCand enum project meta c).1.score ∧
      (scoreCand enum project meta c).1.score ≤ 1 := by
  rw [scoreCand_score]
  obtain ⟨ht0, ht1⟩ := stack_overlap_bounds enum project.tech_stack project.tags
    ((meta c.repository_id).getD defaultMeta).language
    (((meta c.repository_id).getD defaultMeta).topics.getD [])
  have hq0 := qualityScore_nonneg _ hq
  have hq1 := qualityScore_le_one ((meta c.repository_id).getD defaultMeta).overall_score
  constructor <;> linarith

/-! ## Helper lemmas: shape of `match_project_to_repos` -/

theorem scoredList_eq (env : MatchEnv) (enum : List String → List String)
    (pid : String) (ms : ℤ) (limit : ℕ) (project : Project)
    (hp : env.getProject pid = some project) :
    scoredList env enum pid ms limit =
      (env.findSimilar pid (limit * 2) ms).map
        (scoreCand enum project
          (env.getMetaMap ((env.findSimilar pid (limit * 2) ms).map (·.repository_id)))) := by
  unfold scoredList
  rw [hp]

theorem match_result_eq (env : MatchEnv) (enum : List String → List String)
    (σ : Store) (pid : String) (ms : ℤ) (limit : ℕ) :
    (match_project_to_repos env enum σ pid ms limit).1 =
      (stableSortDesc ((scoredList env enum pid ms limit).map Prod.fst)).take limit := by
  unfold match_project_to_repos scoredList
  cases env.getProject pid <;> simp [stableSortDesc]

theorem match_store_eq (env : MatchEnv) (enum : List String → List String)
    (σ : Store) (pid : String) (ms : ℤ) (limit : ℕ) (project : Project)
    (hp : env.getProject pid = some project) :
    (match_project_to_repos env enum σ pid ms limit).2 =
      persistAll pid (scoredList env enum pid ms limit) σ := by
  unfold match_project_to_repos
  rw [hp]

/-! ## Helper lemmas: the stable descending sort -/

theorem mem_insertDesc {a x : Rec} {l : List Rec} :
    a ∈ insertDesc x l ↔ a = x ∨ a ∈ l := by
  induction l with
  | nil => simp [insertDesc]
  | cons y ys ih =>
    by_cases hc : x.score < y.score
    · simp only [insertDesc, if_pos hc, List.mem_cons, ih]
      tauto
    · simp [insertDesc, if_neg hc]

theorem insertDesc_perm (x : Rec) (l : List Rec) :
    (insertDesc x l).Perm (x :: l) := by
  induction l with
  | nil => exact List.Perm.refl _
  | cons y ys ih =>
    by_cases hc : x.score < y.score
    · simp only [insertDesc, if_pos hc]
      exact (ih.cons y).trans (List.Perm.swap x y ys)
    · simp [insertDesc, if_neg hc]

theorem stableSortDesc_perm (l : List Rec) : (stableSortDesc l).Perm l := by
  induction l with
  | nil => exact List.Perm.refl _
  | cons x xs ih =>
    exact (insertDesc_perm x (stableSortDesc xs)).trans (ih.cons x)

theorem pairwise_insertDesc (x : Rec) (l : List Rec)
    (h : l.Pairwise (fun a b => b.score ≤ a.score)) :
    (insertDesc x l).Pairwise (fun a b => b.score ≤ a.score) := by
  induction l with
  | nil => simp [insertDesc]
  | cons y ys ih =>
    rcases List.pairwise_cons.mp h with ⟨hy, hys⟩
    by_cases hc : x.score < y.score
    · simp only [insertDesc, if_pos hc]
      refine List.pairwise_cons.mpr ⟨?_, ih hys⟩
      intro z hz
      rcases mem_insertDesc.mp hz with rfl | hz'
      · exact le_of_lt hc
      · exact hy z hz'
    · simp only [insertDesc, if_neg hc]
      push_neg at hc
      refine List.pairwise_cons.mpr ⟨?_, h⟩
      intro z hz
      rcases List.mem_cons.mp hz with rfl | hz'
      · exact hc
      · exact le_trans (hy z hz') hc

theorem stableSortDesc_pairwise (l : List Rec) :
    (stableSortDesc l).Pairwise (fun a b => b.score ≤ a.score) := by
  induction l with
  | nil => simp [stableSortDesc]
  | cons x xs ih => exact pairwise_insertDesc x _ ih

theorem filter_score_insertDesc (x : Rec) (l : List Rec) (k : ℚ) :
    (insertDesc x l).filter (fun r => r.score = k) =
      if x.score = k then x :: l.filter (fun r => r.score = k)
      else l.filter (fun r => r.score = k) := by
  induction l with
  | nil => by_cases hx : x.score = k <;> simp [insertDesc, hx]
  | cons y ys ih =>
    by_cases hc : x.score < y.score
    · simp only [insertDesc, if_pos hc, List.filter_cons]
      by_cases hx : x.score = k
      · have hy : ¬ y.score = k := by
          intro h
          rw [hx, h] at hc
          exact lt_irrefl k hc
        simp [hy, ih, hx]
      · by_cases hyk : y.score = k <;> simp [hyk, ih, hx]
    · simp only [insertDesc, if_neg hc, List.filter_cons]
      by_cases hx : x.score = k <;> simp [hx]

theorem stableSortDesc_filter_score (l : List Rec) (k : ℚ) :
    (stableSortDesc l).filter (fun r => r.score = k) =
      l.filter (fun r => r.score = k) := by
  induction l with
  | nil => rfl
  | cons x xs ih =>
    simp only [stableSortDesc, filter_score_insertDesc, List.filter_cons]
    by_cases hx : x.score = k <;> simp [hx, ih]

theorem mem_match_result (env : MatchEnv) (enum : List String → List String)
    (σ : Store) (pid : String) (ms : ℤ) (limit : ℕ) {r : Rec}
    (hr : r ∈ (match_project_to_repos env enum σ pid ms limit).1) :
    ∃ pr ∈ scoredList env enum pid ms limit, pr.1 = r := by
  rw [match_result_eq] at hr
  have h1 : r ∈ stableSortDesc ((scoredList env enum pid ms limit).map Prod.fst) :=
    List.take_subset _ _ hr
  have h2 := (stableSortDesc_perm _).mem_iff.mp h1
  rcases List.mem_map.mp h2 with ⟨pr, hpr, hpr2⟩
  exact ⟨pr, hpr, hpr2⟩

/-! ## Helper lemmas: the upsert fold -/

theorem persistAll_apply_not_written (pid : String) (scored : List (Rec × Row))
    (σ : Store) (k : String × String)
    (hk : k ∉ scored.map (fun pr => (pid, pr.1.repo_id))) :
    persistAll pid scored σ k = σ k := by
  induction scored generalizing σ with
  | nil => rfl
  | cons e rest ih =>
    simp only [List.map_cons, List.mem_cons] at hk
    push_neg at hk
    have h2 := ih (upsert σ (pid, e.1.repo_id) e.2) hk.2
    calc persistAll pid (e :: rest) σ k
        = persistAll pid rest (upsert σ (pid, e.1.repo_id) e.2) k := rfl
      _ = upsert σ (pid, e.1.repo_id) e.2 k := h2
      _ = σ k := by simp [upsert, hk.1]

theorem persistAll_apply_written_indep (pid : String) (scored : List (Rec × Row))
    (σ σ' : Store) (k : String × String)
    (hk : k ∈ scored.map (fun pr => (pid, pr.1.repo_id))) :
    persistAll pid scored σ k = persistAll pid scored σ' k := by
  induction scored generalizing σ σ' with
  | nil => simp at hk
  | cons e rest ih =>
    by_cases hr : k ∈ rest.map (fun pr => (pid, pr.1.repo_id))
    · exact ih _ _ hr
    · simp only [List.map_cons, List.mem_cons] at hk
      rcases hk with rfl | hk'
      · have h1 := persistAll_apply_not_written pid rest
          (upsert σ (pid, e.1.repo_id) e.2) _ hr
        have h2 := persistAll_apply_not_written pid rest
          (upsert σ' (pid, e.1.repo_id) e.2) _ hr
        calc persistAll pid (e :: rest) σ (pid, e.1.repo_id)
            = upsert σ (pid, e.1.repo_id) e.2 (pid, e.1.repo_id) := h1
          _ = some e.2 := by simp [upsert]
          _ = upsert σ' (pid, e.1.repo_id) e.2 (pid, e.1.repo_id) := by simp [upsert]
          _ = persistAll pid (e :: rest) σ' (pid, e.1.repo_id) := h2.symm
      · exact absurd hk' hr

theorem persistAll_idem (pid : String) (scored : List (Rec × Row)) (σ : Store) :
    persistAll pid scored (persistAll pid scored σ) = persistAll pid scored σ := by
  funext k
  by_cases hk : k ∈ scored.map (fun pr => (pid, pr.1.repo_id))
  · exact persistAll_apply_written_indep pid scored _ σ k hk
  · rw [persistAll_apply_not_written pid scored _ k hk]

theorem persistAll_apply_written_isSome (pid : String) (scored : List (Rec × Row))
    (σ : Store) (k : String × String)
    (hk : k ∈ scored.map (fun pr => (pid, pr.1.repo_id))) :
    (persistAll pid scored σ k).isSome := by
  induction scored generalizing σ with
  | nil => simp at hk
  | cons e rest ih =>
    by_cases hr : k ∈ rest.map (fun pr => (pid, pr.1.repo_id))
    · exact ih _ hr
    · simp only [List.map_cons, List.mem_cons] at hk
      rcases hk with rfl | hk'
      · have h1 := persistAll_apply_not_written pid rest
          (upsert σ (pid, e.1.repo_id) e.2) _ hr
        have h2 : persistAll pid (e :: rest) σ (pid, e.1.repo_id)
            = upsert σ (pid, e.1.repo_id) e.2 (pid, e.1.repo_id) := h1
        rw [h2]
        simp [upsert]
      · exact absurd hk' hr

/-! ## Claim theorems -/

theorem setEnum_idEnum : SetEnum idEnum := fun l => List.Perm.refl l

theorem setEnum_revEnum : SetEnum revEnum := fun l => l.reverse_perm

/-- Claim C2: `_calculate_stack_overlap` returns
`min 1 (|intersection| / max |project_terms| 1)` with the matched terms
equal (as a set) to the case-folded intersection, the score lies in
`[0,1]`, and an empty project or repository term set yields `(0, [])`. -/
theorem C2_stack_overlap_contract (enum : List String → List String)
    (henum : SetEnum enum) (ps pt : List String) (rl : Option String)
    (rts : List String) :
    (0 ≤ (_calculate_stack_overlap enum ps pt rl rts).1 ∧
      (_calculate_stack_overlap enum ps pt rl rts).1 ≤ 1)
    ∧ (projectTerms ps pt = [] ∨ repoTerms rl rts = [] →
        _calculate_stack_overlap enum ps pt rl rts = (0, []))
    ∧ (¬(projectTerms ps pt = [] ∨ repoTerms rl rts = []) →
        (_calculate_stack_overlap enum ps pt rl rts).1
          = min 1 (((overlapTerms ps pt rl rts).length : ℚ) /
              ((max (projectTerms ps pt).length 1 : ℕ) : ℚ))
        ∧ (∀ t, t ∈ (_calculate_stack_overlap enum ps pt rl rts).2 ↔
            t ∈ projectTerms ps pt ∧ t ∈ repoTerms rl rts)
        ∧ (_calculate_stack_overlap enum ps pt rl rts).2.Nodup) := by
  refine ⟨stack_overlap_bounds enum ps pt rl rts, ?_, ?_⟩
  · intro h
    simp only [_calculate_stack_overlap]
    rw [if_pos h]
  · intro h
    have hres2 : (_calculate_stack_overlap enum ps pt rl rts).2
        = enum (overlapTerms ps pt rl rts) := by
      simp only [_calculate_stack_overlap]
      rw [if_neg h]
    refine ⟨?_, ?_, ?_⟩
    · simp only [_calculate_stack_overlap]
      rw [if_neg h]
    · intro t
      rw [hres2, (henum _).mem_iff]
      unfold overlapTerms
      simp [List.mem_filter]
    · rw [hres2]
      exact ((henum _).nodup_iff).mpr
        (List.Nodup.filter _ (List.nodup_dedup _))

/-- Claim C2 witness: the spec scenario — project
`tech_stack=["python","fastapi"]`, `tags=["ai"]`, repository
`language="python"`, `topics=["fastapi","web"]`. -/
theorem C2_stack_overlap_contract_witness :
    SetEnum idEnum ∧
      (0 ≤ (_calculate_stack_overlap idEnum ["python","fastapi"] ["ai"]
              (some ("python")) ["fastapi","web"]).1 ∧
        (_calculate_stack_overlap idEnum ["python","fastapi"] ["ai"]
            (some ("python")) ["fastapi","web"]).1 ≤ 1) ∧
      (_calculate_stack_overlap idEnum ["python","fastapi"] ["ai"]
          (some ("python")) ["fastapi","web"]).1 = 2/3 := by
  have h := C2_stack_overlap_contract idEnum setEnum_idEnum ["python","fastapi"]
    ["ai"] (some ("python")) ["fastapi","web"]
  refine ⟨setEnum_idEnum, h.1, ?_⟩
  have hne : ¬(projectTerms ["python","fastapi"] ["ai"] = []
      ∨ repoTerms (some ("python")) ["fastapi","web"] = []) := by decide
  rw [(h.2.2 hne).1]
  have hl1 : (overlapTerms ["python","fastapi"] ["ai"] (some ("python"))
      ["fastapi","web"]).length = 2 := by decide
  have hl2 : (projectTerms ["python","fastapi"] ["ai"]).length = 3 := by decide
  rw [hl1, hl2]
  norm_num

/-- Claim C6 (code bug evaluation): the matched-terms list is
`list(overlap)` over a Python set, whose order is the set's iteration
order.  Two runtimes with different hash seeds are two different valid
enumerations of the same set, and on the same inputs they return
different `matched_terms` lists, so the output is not a function of the
inputs alone. -/
theorem C6_matched_terms_order_not_deterministic :
    SetEnum idEnum ∧ SetEnum revEnum
    ∧ (_calculate_stack_overlap idEnum ["python","fastapi"] []
        (some ("python")) ["fastapi"]).2 = ["python","fastapi"]
    ∧ (_calculate_stack_overlap revEnum ["python","fastapi"] []
        (some ("python")) ["fastapi"]).2 = ["fastapi","python"]
    ∧ (["python","fastapi"] : List String) ≠ ["fastapi","python"] := by
  refine ⟨setEnum_idEnum, setEnum_revEnum, ?_, ?_, ?_⟩ <;> decide

/-- Claim C9: a project identifier that does not resolve makes
`match_project_to_repos` return the empty list with the recommendation
table untouched — a no-op, not a fault. -/
theorem C9_unresolved_project_noop (env : MatchEnv)
    (enum : List String → List String) (σ : Store) (pid : String)
    (ms : ℤ) (limit : ℕ) (h : env.getProject pid = none) :
    match_project_to_repos env enum σ pid ms limit = ([], σ) := by
  unfold match_project_to_repos
  rw [h]

/-- Environment for the C9 witness: no project resolves. -/
def envC9 : MatchEnv where
  getProject := fun _ => none
  findSimilar := fun _ _ _ => []
  getMetaMap := fun _ _ => none

/-- Claim C9 witness: matching against a non-existent project id returns
`[]` and leaves the (empty) table exactly as it was. -/
theorem C9_unresolved_project_noop_witness :
    envC9.getProject ("ghost") = none ∧
      match_project_to_repos envC9 idEnum emptyStore ("ghost") 100 20
        = ([], emptyStore) :=
  ⟨rfl, C9_unresolved_project_noop envC9 idEnum emptyStore ("ghost") 100 20 rfl⟩

/-- Helper for C1: `scoredList` is empty when the project does not resolve. -/
theorem scoredList_none (env : MatchEnv) (enum : List String → List String)
    (pid : String) (ms : ℤ) (limit : ℕ) (hp : env.getProject pid = none) :
    scoredList env enum pid ms limit = [] := by
  unfold scoredList
  rw [hp]

/-- Claim C1 (amended): every composite score equals
`0.5*embedding_similarity + 0.3*stack_overlap + 0.2*quality`, where the
stack term is clamped to `[0,1]` and the quality term is
`min 1 (q/100)` for a present non-zero `q` and `1/2` when the quality
score is unset *or zero* (Python's `or`); the embedding similarity is
used unclamped, so the composite lies in `[0,1]` whenever every
store-returned similarity lies in `[0,1]` and every stored quality
score is nonnegative. -/
theorem C1_composite_score_formula_and_bounds (env : MatchEnv)
    (enum : List String → List String) (σ : Store) (pid : String)
    (ms : ℤ) (limit : ℕ)
    (hsim : ∀ c ∈ env.findSimilar pid (limit * 2) ms,
      0 ≤ c.similarity ∧ c.similarity ≤ 1)
    (hq : ∀ ids rid md q, env.getMetaMap ids rid = some md →
      md.overall_score = some q → 0 ≤ q) :
    (∀ (project : Project) (meta : String → Option RepoMeta) (c : Cand),
      (scoreCand enum project meta c).1.score
        = (1/2) * c.similarity
          + (3/10) * (_calculate_stack_overlap enum project.tech_stack project.tags
              ((meta c.repository_id).getD defaultMeta).language
              (((meta c.repository_id).getD defaultMeta).topics.getD [])).1
          + (1/5) * qualityScore ((meta c.repository_id).getD defaultMeta).overall_score)
    ∧ ∀ r ∈ (match_project_to_repos env enum σ pid ms limit).1,
        0 ≤ r.score ∧ r.score ≤ 1 := by
  constructor
  · intro project meta c
    exact scoreCand_score enum project meta c
  · intro r hr
    rcases mem_match_result env enum σ pid ms limit hr with ⟨pr, hpr, hpr1⟩
    cases hp : env.getProject pid with
    | none =>
      rw [scoredList_none env enum pid ms limit hp] at hpr
      exact absurd hpr (List.not_mem_nil pr)
    | some project =>
      rw [scoredList_eq env enum pid ms limit project hp] at hpr
      rcases List.mem_map.mp hpr with ⟨c, hc, hceq⟩
      have hmq : ∀ q,
          ((env.getMetaMap ((env.findSimilar pid (limit * 2) ms).map
              (·.repository_id)) c.repository_id).getD defaultMeta).overall_score
            = some q → 0 ≤ q := by
        cases hmd : env.getMetaMap ((env.findSimilar pid (limit * 2) ms).map
            (·.repository_id)) c.repository_id with
        | none =>
          intro q hqq
          simp [defaultMeta] at hqq
        | some md =>
          intro q hqq
          exact hq _ _ md q hmd (by simpa using hqq)
      have hb := scoreCand_score_bounds enum project
        (env.getMetaMap ((env.findSimilar pid (limit * 2) ms).map (·.repository_id)))
        c (hsim c hc).1 (hsim c hc).2 hmq
      rw [← hpr1, ← hceq]
      exact hb

/-- Environment for the C1 counterexample: the Similarity Store returns
a similarity of `3` (the code never clamps it). -/
def envC1 : MatchEnv where
  getProject := fun _ => some { tech_stack := [], tags := [] }
  findSimilar := fun _ _ _ =>
    [{ repository_id := "r1", full_name := "o/r", similarity := 3 }]
  getMetaMap := fun _ _ => none

/-- Claim C1 counterexample: with an unclamped store similarity of `3`
the composite is `8/5 > 1` (no clamp on the embedding term exists in
the code), and a *present* quality score of `0` yields `1/2`, not
`min 1 (0/100) = 0` (Python `or` treats `0` as unset). -/
theorem C1_counterexample :
    ((match_project_to_repos envC1 idEnum emptyStore ("p") 100 20).1.map Rec.score
        = [8/5] ∧ ¬((8:ℚ)/5 ≤ 1))
    ∧ (qualityScore (some 0) = 1/2 ∧ min (1:ℚ) (0/100) ≠ 1/2) := by
  refine ⟨⟨?_, by norm_num⟩, ⟨?_, by norm_num [min_def]⟩⟩
  · have h1 : (match_project_to_repos envC1 idEnum emptyStore ("p") 100 20).1.map Rec.score
        = [(1/2) * 3
            + (3/10) * (_calculate_stack_overlap idEnum [] [] none ([] : List String)).1
            + (1/5) * qualityScore none] := rfl
    rw [h1]
    have h2 : (_calculate_stack_overlap idEnum [] [] none ([] : List String)).1 = 0 := by
      simp [_calculate_stack_overlap, projectTerms, repoTerms]
    have h3 : qualityScore none = 1/2 := by norm_num [qualityScore, min_def]
    rw [h2, h3]
    norm_num
  · norm_num [qualityScore, min_def]

/-- Environment for the C1 witness: one candidate with an in-range
similarity and a stored quality score of `80`. -/
def envC1W : MatchEnv where
  getProject := fun _ => some { tech_stack := ["python"], tags := [] }
  findSimilar := fun _ _ _ =>
    [{ repository_id := "r1", full_name := "a/b", similarity := 1 }]
  getMetaMap := fun _ _ => some
    { language := some ("python"), topics := some ["python"]
      overall_score := some 80, stars_today := 0, stars := 10 }

/-- Claim C1 witness: the amended bound applied to a concrete
environment whose similarities lie in `[0,1]`. -/
theorem C1_composite_score_formula_and_bounds_witness :
    (∀ c ∈ envC1W.findSimilar ("p") (20 * 2) 100,
      0 ≤ c.similarity ∧ c.similarity ≤ 1)
    ∧ ∀ r ∈ (match_project_to_repos envC1W idEnum emptyStore ("p") 100 20).1,
        0 ≤ r.score ∧ r.score ≤ 1 := by
  have hsim : ∀ c ∈ envC1W.findSimilar ("p") (20 * 2) 100,
      0 ≤ c.similarity ∧ c.similarity ≤ 1 := by
    intro c hc
    rcases List.mem_singleton.mp hc with rfl
    constructor <;> norm_num
  have hq : ∀ ids rid md q, envC1W.getMetaMap ids rid = some md →
      md.overall_score = some q → 0 ≤ q := by
    intro ids rid md q h1 h2
    injection h1 with h1
    subst h1
    injection h2 with h2
    subst h2
    norm_num
  exact ⟨hsim,
    (C1_composite_score_formula_and_bounds envC1W idEnum emptyStore ("p")
      100 20 hsim hq).2⟩

/-- Claim C3: the list returned by `match_project_to_repos` is the
stable descending sort of the scored candidates, truncated only after
sorting: scores are non-increasing across adjacent elements, equal
scores keep their candidate (insertion) order, and every element cut by
the truncation scores no higher than every element kept. -/
theorem C3_sorted_stable_truncation (env : MatchEnv)
    (enum : List String → List String) (σ : Store) (pid : String)
    (ms : ℤ) (limit : ℕ) :
    (match_project_to_repos env enum σ pid ms limit).1
        = (stableSortDesc ((scoredList env enum pid ms limit).map Prod.fst)).take limit
    ∧ ((match_project_to_repos env enum σ pid ms limit).1).Pairwise
        (fun a b => b.score ≤ a.score)
    ∧ (∀ k : ℚ,
        (stableSortDesc ((scoredList env enum pid ms limit).map Prod.fst)).filter
            (fun r => r.score = k)
          = ((scoredList env enum pid ms limit).map Prod.fst).filter
              (fun r => r.score = k))
    ∧ ∀ a ∈ (match_project_to_repos env enum σ pid ms limit).1,
        ∀ b ∈ (stableSortDesc ((scoredList env enum pid ms limit).map Prod.fst)).drop limit,
          b.score ≤ a.score := by
  refine ⟨match_result_eq env enum σ pid ms limit, ?_,
    fun k => stableSortDesc_filter_score _ k, ?_⟩
  · rw [match_result_eq]
    exact List.Pairwise.sublist (List.take_sublist _ _) (stableSortDesc_pairwise _)
  · intro a ha b hb
    have hs := stableSortDesc_pairwise ((scoredList env enum pid ms limit).map Prod.fst)
    rw [← List.take_append_drop limit
      (stableSortDesc ((scoredList env enum pid ms limit).map Prod.fst))] at hs
    rw [match_result_eq] at ha
    exact (List.pairwise_append.mp hs).2.2 a ha b hb

/-- Claim C4: re-running `match_project_to_repos` on its own output
store returns the same list and leaves the table identical (the upsert
keyed on `(project_id, repository_id)` overwrites, never duplicates),
and keys outside the written `(project, repository)` pairs are never
touched. -/
theorem C4_rerun_idempotent (env : MatchEnv)
    (enum : List String → List String) (σ : Store) (pid : String)
    (ms : ℤ) (limit : ℕ) :
    (match_project_to_repos env enum
        (match_project_to_repos env enum σ pid ms limit).2 pid ms limit).1
      = (match_project_to_repos env enum σ pid ms limit).1
    ∧ (match_project_to_repos env enum
        (match_project_to_repos env enum σ pid ms limit).2 pid ms limit).2
      = (match_project_to_repos env enum σ pid ms limit).2
    ∧ ∀ k, k ∉ (scoredList env enum pid ms limit).map (fun pr => (pid, pr.1.repo_id)) →
        (match_project_to_repos env enum σ pid ms limit).2 k = σ k := by
  cases hp : env.getProject pid with
  | none =>
    have e : ∀ τ : Store, match_project_to_repos env enum τ pid ms limit = ([], τ) := by
      intro τ
      unfold match_project_to_repos
      rw [hp]
    refine ⟨?_, ?_, ?_⟩
    · rw [e, e]
    · rw [e, e]
    · intro k _
      rw [e]
  | some project =>
    refine ⟨?_, ?_, ?_⟩
    · rw [match_result_eq, match_result_eq]
    · rw [match_store_eq env enum _ pid ms limit project hp,
        match_store_eq env enum σ pid ms limit project hp]
      exact persistAll_idem pid _ σ
    · intro k hk
      rw [match_store_eq env enum σ pid ms limit project hp]
      exact persistAll_apply_not_written pid _ σ k hk

/-- Environment for the C5 counterexample: one candidate whose id is
absent from the batched metadata lookup. -/
def envC5 : MatchEnv where
  getProject := fun _ => some { tech_stack := ["python"], tags := [] }
  findSimilar := fun _ _ _ =>
    [{ repository_id := "r1", full_name := "o/r", similarity := 1/2 }]
  getMetaMap := fun _ _ => none

/-- Claim C5 counterexample: a candidate with no metadata row is *not*
excluded — it is returned (the returned ids are exactly `["r1"]`) and a
recommendation row for it is persisted. -/
theorem C5_counterexample :
    ((match_project_to_repos envC5 idEnum emptyStore ("p") 100 20).1.map Rec.repo_id
        = ["r1"])
    ∧ ((match_project_to_repos envC5 idEnum emptyStore ("p") 100 20).2
        ("p", "r1")).isSome = true := by
  constructor
  · rfl
  · rfl

/-- Claim C5 (amended): a candidate whose id is missing from the batched
metadata lookup is still scored — with the metadata defaults: empty
term set (stack overlap `0`, stored as such) and default quality `1/2`,
giving `score = similarity/2 + 1/10` — and it is both persisted and
part of the candidate list handed to sorting; no error is raised. -/
theorem C5_missing_metadata_scored_with_defaults (env : MatchEnv)
    (enum : List String → List String) (σ : Store) (pid : String)
    (ms : ℤ) (limit : ℕ) (project : Project) (c : Cand)
    (hp : env.getProject pid = some project)
    (hc : c ∈ env.findSimilar pid (limit * 2) ms)
    (hm : env.getMetaMap ((env.findSimilar pid (limit * 2) ms).map (·.repository_id))
        c.repository_id = none) :
    (scoreCand enum project
        (env.getMetaMap ((env.findSimilar pid (limit * 2) ms).map (·.repository_id))) c
      ∈ scoredList env enum pid ms limit)
    ∧ (scoreCand enum project
        (env.getMetaMap ((env.findSimilar pid (limit * 2) ms).map (·.repository_id))) c).1.score
        = (1/2) * c.similarity + (1/5) * (1/2)
    ∧ (scoreCand enum project
        (env.getMetaMap ((env.findSimilar pid (limit * 2) ms).map (·.repository_id))) c).2.stack_overlap_score
        = some 0
    ∧ ((match_project_to_repos env enum σ pid ms limit).2 (pid, c.repository_id)).isSome
        = true := by
  have hmem : scoreCand enum project
      (env.getMetaMap ((env.findSimilar pid (limit * 2) ms).map (·.repository_id))) c
      ∈ scoredList env enum pid ms limit := by
    rw [scoredList_eq env enum pid ms limit project hp]
    exact List.mem_map_of_mem _ hc
  have hso : (_calculate_stack_overlap enum project.tech_stack project.tags
      (((env.getMetaMap ((env.findSimilar pid (limit * 2) ms).map (·.repository_id))
          c.repository_id).getD defaultMeta).language)
      ((((env.getMetaMap ((env.findSimilar pid (limit * 2) ms).map (·.repository_id))
          c.repository_id).getD defaultMeta).topics).getD [])) = (0, []) := by
    rw [hm]
    simp [_calculate_stack_overlap, defaultMeta, repoTerms]
  refine ⟨hmem, ?_, ?_, ?_⟩
  · rw [scoreCand_score, hso]
    have hqn : qualityScore ((none : Option RepoMeta).getD defaultMeta).overall_score = 1/2 := by
      norm_num [qualityScore, defaultMeta, min_def]
    rw [hm, hqn]
    norm_num
  · show some (_calculate_stack_overlap enum project.tech_stack project.tags _ _).1 = some 0
    rw [hso]
  · rw [match_store_eq env enum σ pid ms limit project hp]
    apply persistAll_apply_written_isSome
    exact List.mem_map.mpr ⟨_, hmem, rfl⟩

/-- Claim C5 witness: the amended behaviour at the concrete environment
of the counterexample. -/
theorem C5_missing_metadata_scored_with_defaults_witness :
    envC5.getProject ("p") = some { tech_stack := ["python"], tags := [] }
    ∧ ({ repository_id := "r1", full_name := "o/r", similarity := 1/2 : Cand}
        ∈ envC5.findSimilar ("p") (20 * 2) 100)
    ∧ ((match_project_to_repos envC5 idEnum emptyStore ("p") 100 20).2
        ("p", "r1")).isSome = true :=
  ⟨rfl, List.mem_singleton.mpr rfl,
   (C5_missing_metadata_scored_with_defaults envC5 idEnum emptyStore ("p") 100 20
      { tech_stack := ["python"], tags := [] }
      { repository_id := "r1", full_name := "o/r", similarity := 1/2 }
      rfl (List.mem_singleton.mpr rfl) rfl).2.2.2⟩

/-- Claim C10: when the project resolves, the Similarity Store is asked
for `limit * 2` candidates, a row is upserted for *every* candidate of
that query, and the returned list — each element of which is one of
those scored candidates — is truncated to `limit`, so the persisted set
can strictly contain the returned one. -/
theorem C10_all_candidates_persisted (env : MatchEnv)
    (enum : List String → List String) (σ : Store) (pid : String)
    (ms : ℤ) (limit : ℕ) (project : Project)
    (hp : env.getProject pid = some project) :
    (∀ c ∈ env.findSimilar pid (limit * 2) ms,
        ((match_project_to_repos env enum σ pid ms limit).2
          (pid, c.repository_id)).isSome = true)
    ∧ (match_project_to_repos env enum σ pid ms limit).1.length ≤ limit
    ∧ ∀ r ∈ (match_project_to_repos env enum σ pid ms limit).1,
        ∃ c ∈ env.findSimilar pid (limit * 2) ms,
          r = (scoreCand enum project
            (env.getMetaMap ((env.findSimilar pid (limit * 2) ms).map
              (·.repository_id))) c).1 := by
  refine ⟨?_, ?_, ?_⟩
  · intro c hc
    rw [match_store_eq env enum σ pid ms limit project hp]
    apply persistAll_apply_written_isSome
    refine List.mem_map.mpr ⟨scoreCand enum project
      (env.getMetaMap ((env.findSimilar pid (limit * 2) ms).map (·.repository_id))) c,
      ?_, rfl⟩
    rw [scoredList_eq env enum pid ms limit project hp]
    exact List.mem_map_of_mem _ hc
  · rw [match_result_eq]
    exact List.length_take_le _ _
  · intro r hr
    rcases mem_match_result env enum σ pid ms limit hr with ⟨pr, hpr, hpr1⟩
    rw [scoredList_eq env enum pid ms limit project hp] at hpr
    rcases List.mem_map.mp hpr with ⟨c, hc, hceq⟩
    exact ⟨c, hc, by rw [← hpr1, ← hceq]⟩

/-- Environment for the C10 witness: the store hands back `limit * 2 = 2`
candidates while only `limit = 1` can be returned. -/
def envC10 : MatchEnv where
  getProject := fun _ => some { tech_stack := [], tags := [] }
  findSimilar := fun _ _ _ =>
    [{ repository_id := "r1", full_name := "a/r1", similarity := 1 },
     { repository_id := "r2", full_name := "a/r2", similarity := 0 }]
  getMetaMap := fun _ _ => none

/-- Claim C10 witness: both store-returned candidates get persisted rows
while the returned list is capped at one element. -/
theorem C10_all_candidates_persisted_witness :
    envC10.getProject ("p") = some { tech_stack := [], tags := [] }
    ∧ ((match_project_to_repos envC10 idEnum emptyStore ("p") 100 1).2
        ("p", "r1")).isSome = true
    ∧ ((match_project_to_repos envC10 idEnum emptyStore ("p") 100 1).2
        ("p", "r2")).isSome = true
    ∧ (match_project_to_repos envC10 idEnum emptyStore ("p") 100 1).1.length ≤ 1 := by
  have h := C10_all_candidates_persisted envC10 idEnum emptyStore ("p") 100 1
    { tech_stack := [], tags := [] } rfl
  exact ⟨rfl, h.1 _ (List.mem_cons_self _ _),
    h.1 _ (List.mem_cons_of_mem _ (List.mem_cons_self _ _)), h.2.1⟩

/-- Claim C7: in both backfills a per-item failure (of the embedding
call or of the persist) contributes nothing and the fold moves on: the
persisted-update trace is exactly the successful items in order, and
the returned count is the number of items that were successfully
embedded *and* persisted. -/
theorem C7_backfill_skip_and_count (env : EmbedEnv) (limit : ℕ) :
    ((embed_new_repos env limit).1
        = ((env.reposWithoutEmbedding limit).filter (repoEmbedOk env)).length
      ∧ (embed_new_repos env limit).2
        = (env.reposWithoutEmbedding limit).filterMap
            (embedOutcome (fun r => env.embed_text (repoSummaryOf r))
              (fun r e => env.updateRepoOk r.id e) RepoItem.id))
    ∧ ((embed_new_projects env).1
        = (env.projectsWithoutEmbedding.filter (projectEmbedOk env)).length
      ∧ (embed_new_projects env).2
        = env.projectsWithoutEmbedding.filterMap
            (embedOutcome (fun a => env.embed_text (projectSummaryOf a))
              (fun a e => env.updateProjectOk a.id e) ProjectItem.id)) := by
  have hr : embed_new_repos env limit
      = (0 + ((env.reposWithoutEmbedding limit).filterMap
            (embedOutcome (fun r => env.embed_text (repoSummaryOf r))
              (fun r e => env.updateRepoOk r.id e) RepoItem.id)).length,
         [] ++ (env.reposWithoutEmbedding limit).filterMap
            (embedOutcome (fun r => env.embed_text (repoSummaryOf r))
              (fun r e => env.updateRepoOk r.id e) RepoItem.id)) :=
    embedFold_eq _ _ _ _ _
  have hpj : embed_new_projects env
      = (0 + (env.projectsWithoutEmbedding.filterMap
            (embedOutcome (fun a => env.embed_text (projectSummaryOf a))
              (fun a e => env.updateProjectOk a.id e) ProjectItem.id)).length,
         [] ++ env.projectsWithoutEmbedding.filterMap
            (embedOutcome (fun a => env.embed_text (projectSummaryOf a))
              (fun a e => env.updateProjectOk a.id e) ProjectItem.id)) :=
    embedFold_eq _ _ _ _ _
  have hfr : (env.reposWithoutEmbedding limit).filter (repoEmbedOk env)
      = (env.reposWithoutEmbedding limit).filter
          (fun a => (embedOutcome (fun r => env.embed_text (repoSummaryOf r))
            (fun r e => env.updateRepoOk r.id e) RepoItem.id a).isSome) :=
    List.filter_congr (fun a _ => repoEmbedOk_iff_outcome env a)
  have hfp : env.projectsWithoutEmbedding.filter (projectEmbedOk env)
      = env.projectsWithoutEmbedding.filter
          (fun a => (embedOutcome (fun x => env.embed_text (projectSummaryOf x))
            (fun x e => env.updateProjectOk x.id e) ProjectItem.id a).isSome) :=
    List.filter_congr (fun a _ => projectEmbedOk_iff_outcome env a)
  refine ⟨⟨?_, ?_⟩, ?_, ?_⟩
  · rw [hr, hfr, ← length_filterMap_isSome]
    simp
  · rw [hr]
    simp
  · rw [hpj, hfp, ← length_filterMap_isSome]
    simp
  · rw [hpj]
    simp

/-- Claim C8: with notification requested, the selected set is exactly
the recommendations scoring at or above the threshold; when non-empty
the notifier is invoked exactly once with the full set and the context;
when empty (or when notification is not requested) it is never invoked;
`notified_count` is the size of the set only when notification was
requested, something qualified and delivery succeeded — otherwise `0` —
and the summary (totals, projects matched) is returned in every case. -/
theorem C8_notify_exactly_once_with_full_set (env : PipelineEnv)
    (enum : List String → List String) (σ : Store) (ms : ℤ)
    (notify : Bool) (θ : ℚ) (ctx : Option String) :
    ((run_full_pipeline env enum σ ms notify θ ctx).2.2
        = if notify ∧ (pipelineMatches env enum σ ms).1.filter
              (fun r => θ ≤ r.1.score) ≠ [] then
            [((pipelineMatches env enum σ ms).1.filter (fun r => θ ≤ r.1.score), θ, ctx)]
          else [])
    ∧ (notify = false →
        (run_full_pipeline env enum σ ms notify θ ctx).2.2 = []
        ∧ (run_full_pipeline env enum σ ms notify θ ctx).1.notified_count = 0)
    ∧ ((pipelineMatches env enum σ ms).1.filter (fun r => θ ≤ r.1.score) = [] →
        (run_full_pipeline env enum σ ms notify θ ctx).2.2 = []
        ∧ (run_full_pipeline env enum σ ms notify θ ctx).1.notified_count = 0)
    ∧ (env.notify_recommendations
          ((pipelineMatches env enum σ ms).1.filter (fun r => θ ≤ r.1.score)) θ ctx
            = false →
        (run_full_pipeline env enum σ ms notify θ ctx).1.notified_count = 0)
    ∧ (notify = true →
        (pipelineMatches env enum σ ms).1.filter (fun r => θ ≤ r.1.score) ≠ [] →
        env.notify_recommendations
          ((pipelineMatches env enum σ ms).1.filter (fun r => θ ≤ r.1.score)) θ ctx
            = true →
        (run_full_pipeline env enum σ ms notify θ ctx).1.notified_count
          = ((pipelineMatches env enum σ ms).1.filter (fun r => θ ≤ r.1.score)).length)
    ∧ (run_full_pipeline env enum σ ms notify θ ctx).1.total_recommendations
        = (pipelineMatches env enum σ ms).1.length
    ∧ (run_full_pipeline env enum σ ms notify θ ctx).1.projects_matched
        = env.getProjects.length := by
  refine ⟨rfl, ?_, ?_, ?_, ?_, rfl, rfl⟩
  · intro h
    subst h
    constructor <;> simp [run_full_pipeline]
  · intro h
    constructor <;> simp [run_full_pipeline, h]
  · intro h
    simp [run_full_pipeline, h]
  · intro h1 h2 h3
    subst h1
    simp [run_full_pipeline, h2, h3]
